import Mathlib

/-!
Verification of the frame-to-frame camera-motion estimator in
`boxmot/motion/cmc/sift.py` (class `SIFT`, methods `__init__` and `apply`).

Embedding conventions:
* Machine floating-point numbers are idealized as exact rationals (`ℚ`).
* A keypoint is its `pt` field, a pair of coordinates.  A descriptor is a
  vector of rationals; descriptor distance is the `NORM_L2` Euclidean
  distance, which we represent throughout by its *square* (`sqDist`), so all
  values stay rational.  The ratio test `m.distance < 0.7 * n.distance` on
  nonnegative distances is equivalent to `d1 < (0.7)^2 * d2` on the squares.
* The external collaborators are inputs of `SIFT.apply`:
  - `extractor` models `cv2.SIFT_create().detectAndCompute(frame, mask)`:
    it receives the mask built by `apply` and returns the keypoint list
    together with `Option` descriptors.  (OpenCV returns descriptors `None`
    when no keypoints are found, hence the `Option`.)
  - `est` models `cv2.estimateAffinePartial2D(src_pts, dst_pts)`: it maps the
    two point lists to an optional 2x3 matrix (`None` on failure).
* Python statements that raise are modelled by `Except.error`; the error
  string names the exception the interpreter would raise.
* `print` of the "not enough matching points" warning is recorded in the
  `warned` field of the result; whether `cv2.estimateAffinePartial2D` was
  invoked is recorded in the `estCalled` field.
* NumPy basic slicing on an axis of length `n` maps an integer bound `a` to
  `a + n` when `a < 0` and then clips into `[0, n]`; `sliceIdx` implements
  exactly this.  `astype(int)` truncates toward zero (`truncQ`).
-/

/-- A keypoint, reduced to its `pt` coordinate pair. -/
abbrev KP : Type := ℚ × ℚ

/-- A descriptor: a vector of rationals. -/
abbrev Desc : Type := List ℚ

/-- A detection box `(x1, y1, x2, y2)` in full-resolution coordinates. -/
abbrev Det : Type := ℚ × ℚ × ℚ × ℚ

/-- A 2x3 warp matrix (row-major fields `a<row><col>`). -/
structure Mat23 where
  a00 : ℚ
  a01 : ℚ
  a02 : ℚ
  a10 : ℚ
  a11 : ℚ
  a12 : ℚ
deriving DecidableEq

/-- A 3x3 warp matrix, used only for the homography-shaped `warp_matrix`
attribute set by `__init__`. -/
structure Mat33 where
  b00 : ℚ
  b01 : ℚ
  b02 : ℚ
  b10 : ℚ
  b11 : ℚ
  b12 : ℚ
  b20 : ℚ
  b21 : ℚ
  b22 : ℚ
deriving DecidableEq

/-- A warp matrix of either shape, as `np.eye(2,3)` / `np.eye(3,3)` can both
occur as the `warp_matrix` attribute. -/
inductive Warp where
  | m23 (m : Mat23)
  | m33 (m : Mat33)
deriving DecidableEq

/-- `np.eye(2, 3)`. -/
def eye23 : Mat23 := ⟨1, 0, 0, 0, 1, 0⟩

/-- `np.eye(3, 3)`. -/
def eye33 : Mat33 := ⟨1, 0, 0, 0, 1, 0, 0, 0, 1⟩

/-- Is this warp matrix of the 3x3 (homography) shape? -/
def Warp.isM33 : Warp → Bool
  | .m23 _ => false
  | .m33 _ => true

/-- `cv2.MOTION_TRANSLATION`. -/
def MOTION_TRANSLATION : ℕ := 0

/-- `cv2.MOTION_EUCLIDEAN`. -/
def MOTION_EUCLIDEAN : ℕ := 1

/-- `cv2.MOTION_AFFINE`. -/
def MOTION_AFFINE : ℕ := 2

/-- `cv2.MOTION_HOMOGRAPHY`. -/
def MOTION_HOMOGRAPHY : ℕ := 3

/-- The mutable state of a `SIFT` instance: the configuration stored by
`__init__` plus the previous-frame cache `prev_desc` (a pair
`[keypoints, descriptors]`, where the descriptors may be `None`). -/
structure SIFTState where
  align : Bool
  grayscale : Bool
  scale : ℚ
  warp_mode : ℕ
  term_eps : ℚ
  term_max_iter : ℕ
  warp_matrix : Warp
  minimum_features : ℕ
  prev_desc : Option (List KP × Option (List Desc))
deriving DecidableEq

/-- `SIFT.__init__(warp_mode, eps, max_iter, scale, align, grayscale)`.
It performs no validation of any argument and cannot fail; it stores the
configuration, sets `warp_matrix` to `np.eye(3,3)` exactly when
`warp_mode == cv2.MOTION_HOMOGRAPHY` and to `np.eye(2,3)` otherwise, fixes
`minimum_features = 10` and leaves the cache `prev_desc = None`. -/
def SIFT.init (warp_mode : ℕ) (eps : ℚ) (max_iter : ℕ) (scale : ℚ)
    (align grayscale : Bool) : SIFTState :=
  { align := align
    grayscale := grayscale
    scale := scale
    warp_mode := warp_mode
    term_eps := eps
    term_max_iter := max_iter
    warp_matrix := if warp_mode = MOTION_HOMOGRAPHY then .m33 eye33 else .m23 eye23
    minimum_features := 10
    prev_desc := none }

/-- `astype(int)` / `int(...)` truncation of a rational toward zero. -/
def truncQ (q : ℚ) : ℤ := if q < 0 then -(⌊-q⌋) else ⌊q⌋

/-- NumPy basic-slice bound resolution on an axis of length `n`: a negative
bound counts from the end, then the result is clipped into `[0, n]`. -/
def sliceIdx (n : ℕ) (a : ℤ) : ℕ :=
  let a2 : ℤ := if a < 0 then a + n else a
  if a2 < 0 then 0 else if (n : ℤ) < a2 then n else a2.toNat

/-- Does the zeroed rectangle `mask[tlbr[1]:tlbr[3], tlbr[0]:tlbr[2]] = 0` of
a detection (scaled by `scale` and truncated with `astype(int)`) cover the
pixel `(r, c)` of an `h × w` mask, under NumPy slice semantics? -/
def detCovers (h w : ℕ) (scale : ℚ) (det : Det) (r c : ℕ) : Bool :=
  let x1 := truncQ (det.1 * scale)
  let y1 := truncQ (det.2.1 * scale)
  let x2 := truncQ (det.2.2.1 * scale)
  let y2 := truncQ (det.2.2.2 * scale)
  decide (sliceIdx h y1 ≤ r ∧ r < sliceIdx h y2 ∧ sliceIdx w x1 ≤ c ∧ c < sliceIdx w x2)

/-- The mask before detections are removed, at pixel `(r, c)`:
`np.zeros_like(frame)`, then
`mask[int(0.02*h):int(0.98*h), int(0.02*w):int(0.98*w)] = 255`.
(`int(0.02*h)` equals `2*h/100` and `int(0.98*h)` equals `98*h/100` in exact
arithmetic, both by natural-number division.) -/
def maskBase (h w r c : ℕ) : ℕ :=
  if 2 * h / 100 ≤ r ∧ r < 98 * h / 100 ∧ 2 * w / 100 ≤ c ∧ c < 98 * w / 100 then 255 else 0

/-- The value of the search mask built by `apply` at pixel `(r, c)`: the
bordered base, with every pixel covered by some detection's scaled,
truncated box set to `0`; `None` detections leave only the border
exclusion. -/
def maskAt (h w : ℕ) (scale : ℚ) : Option (List Det) → ℕ → ℕ → ℕ
  | none, r, c => maskBase h w r c
  | some ds, r, c =>
    if ds.any (fun dt => detCovers h w scale dt r c) then 0 else maskBase h w r c

/-- Squared `NORM_L2` distance between two descriptors. -/
def sqDist (a b : Desc) : ℚ := ((a.zip b).map (fun p => (p.1 - p.2) ^ 2)).sum

/-- Of two indexed distances, the strictly smaller one; the first argument
(the earlier entry) wins ties. -/
def minPair (p q : ℕ × ℚ) : ℕ × ℚ := if q.2 < p.2 then q else p

/-- First minimum of an indexed distance list (earlier entries win ties),
as the brute-force matcher's nearest neighbour. -/
def argminL : List (ℕ × ℚ) → Option (ℕ × ℚ)
  | [] => none
  | p :: ps => some ((argminL ps).elim p (minPair p))

/-- The indexed list of squared distances from query descriptor `q` to every
train descriptor. -/
def idxDists (q : Desc) (train : List Desc) : List (ℕ × ℚ) :=
  train.enum.map (fun it => (it.1, sqDist q it.2))

/-- `knnMatch(..., k=2)` for a single query descriptor: the nearest and the
second-nearest (distinct-index) train entries with their squared distances,
or `none` when the train set has fewer than two entries. -/
def knn2 (q : Desc) (train : List Desc) : Option ((ℕ × ℚ) × (ℕ × ℚ)) :=
  match argminL (idxDists q train) with
  | none => none
  | some b1 =>
    match argminL ((idxDists q train).filter (fun p => decide (p.1 ≠ b1.1))) with
    | none => none
    | some b2 => some (b1, b2)

/-- The ratio-test filter of `apply` (lines 117-121): `knnMatch` is called
with the *cached previous* descriptors as queries and the *current*
descriptors as train set, and a match `m` is kept iff
`m.distance < rho * n.distance` (equivalently `d1 < rho^2 * d2` on squared
distances).  Each kept pair is `(queryIdx, trainIdx)`; the source uses
`rho = 0.7`. -/
def goodMatches (rho : ℚ) (qDescs tDescs : List Desc) : List (ℕ × ℕ) :=
  qDescs.enum.filterMap (fun iq =>
    match knn2 iq.2 tDescs with
    | none => none
    | some b => if b.1.2 < rho ^ 2 * b.2.2 then some (iq.1, b.1.1) else none)

/-- The observable outcome of a non-raising `apply` call: the returned warp,
the state after the call, whether the "not enough matching points" warning
was printed, and whether `cv2.estimateAffinePartial2D` was invoked. -/
structure ApplyOut where
  warp : Warp
  state : SIFTState
  warned : Bool
  estCalled : Bool
deriving DecidableEq

/-- `SIFT.apply(curr_img, detections)` (lines 85-137), for a preprocessed
frame of shape `(h, w)`.  The extraction result and the robust estimator are
supplied as functions (see the module comment).  Following the source:
* first call (`prev_desc is None`): cache the extraction, return `np.eye(2,3)`;
* `desc.shape[0]` raises `AttributeError` when the descriptors are `None`
  (`or` short-circuits, so the cached side is only touched when the current
  count is not below threshold);
* a below-threshold descriptor count returns identity *without* touching the
  cache (line 114 returns before the update on line 136);
* `len(good) > minimum_features` (strict) gates the estimator; otherwise the
  warning is printed and the identity from line 107 is returned;
* on estimator failure (`A is None`) with `scale < 1.0`, line 129 subscripts
  `None` and raises `TypeError`, because the `A is None` check only comes on
  line 133; with `scale >= 1.0` the identity is substituted;
* every path that passes the threshold check updates the cache (line 136). -/
def SIFT.apply (s : SIFTState) (h w : ℕ) (detections : Option (List Det))
    (extractor : (ℕ → ℕ → ℕ) → List KP × Option (List Desc))
    (est : List KP → List KP → Option Mat23) : Except String ApplyOut :=
  let mask : ℕ → ℕ → ℕ := maskAt h w s.scale detections
  let kpdesc : List KP × Option (List Desc) := extractor mask
  match s.prev_desc with
  | none => .ok ⟨.m23 eye23, { s with prev_desc := some kpdesc }, false, false⟩
  | some pd =>
    match kpdesc.2 with
    | none => .error "AttributeError: NoneType object has no attribute shape"
    | some d =>
      if d.length < s.minimum_features then
        .ok ⟨.m23 eye23, s, false, false⟩
      else
        match pd.2 with
        | none => .error "AttributeError: NoneType object has no attribute shape"
        | some pdl =>
          if pdl.length < s.minimum_features then
            .ok ⟨.m23 eye23, s, false, false⟩
          else
            let good := goodMatches (7/10) pdl d
            if s.minimum_features < good.length then
              let src_pts := good.map (fun ij => pd.1.getD ij.1 ((0 : ℚ), (0 : ℚ)))
              let dst_pts := good.map (fun ij => kpdesc.1.getD ij.2 ((0 : ℚ), (0 : ℚ)))
              match est src_pts dst_pts with
              | some A =>
                let A2 : Mat23 :=
                  if s.scale < 1 then { A with a02 := A.a02 / s.scale, a12 := A.a12 / s.scale }
                  else A
                .ok ⟨.m23 A2, { s with prev_desc := some kpdesc }, false, true⟩
              | none =>
                if s.scale < 1 then
                  .error "TypeError: NoneType object is not subscriptable"
                else
                  .ok ⟨.m23 eye23, { s with prev_desc := some kpdesc }, false, true⟩
            else
              .ok ⟨.m23 eye23, { s with prev_desc := some kpdesc }, true, false⟩

/-- C4: on a freshly constructed estimator, for every preprocessed frame
shape, every detection collection (absent, empty or not), every extraction
and every robust estimator, the first `apply` call returns the identity
transform `np.eye(2,3)`, raises nothing, prints no warning, never invokes the
robust estimator, and caches the extracted keypoints and descriptors as the
previous-frame state. -/
theorem C4_first_call_identity (wm : ℕ) (eps : ℚ) (mi : ℕ) (sc : ℚ) (al gr : Bool)
    (h w : ℕ) (dets : Option (List Det))
    (extractor : (ℕ → ℕ → ℕ) → List KP × Option (List Desc))
    (est : List KP → List KP → Option Mat23) :
    SIFT.apply (SIFT.init wm eps mi sc al gr) h w dets extractor est =
      .ok ⟨.m23 eye23,
        { SIFT.init wm eps mi sc al gr with
            prev_desc := some (extractor (maskAt h w sc dets)) },
        false, false⟩ := rfl

/-! ### Concrete scenarios used by witnesses and counterexamples -/

/-- Ten one-dimensional descriptors `0 .. 9`. -/
def d10 : List Desc := [[0], [1], [2], [3], [4], [5], [6], [7], [8], [9]]

/-- Ten keypoints. -/
def k10 : List KP :=
  [(0, 0), (1, 1), (2, 2), (3, 3), (4, 4), (5, 5), (6, 6), (7, 7), (8, 8), (9, 9)]

/-- Eleven one-dimensional descriptors `0 .. 10`. -/
def d11 : List Desc := [[0], [1], [2], [3], [4], [5], [6], [7], [8], [9], [10]]

/-- Eleven keypoints. -/
def k11 : List KP :=
  [(0, 0), (1, 1), (2, 2), (3, 3), (4, 4), (5, 5), (6, 6), (7, 7), (8, 8), (9, 9), (10, 10)]

/-- A single-descriptor extraction result. -/
def ext1 : (ℕ → ℕ → ℕ) → List KP × Option (List Desc) := fun _ => ([(0, 0)], some [[0]])

/-- A ten-descriptor extraction result. -/
def ext10 : (ℕ → ℕ → ℕ) → List KP × Option (List Desc) := fun _ => (k10, some d10)

/-- An eleven-descriptor extraction result. -/
def ext11 : (ℕ → ℕ → ℕ) → List KP × Option (List Desc) := fun _ => (k11, some d11)

/-- The extraction result OpenCV produces on an all-black frame: zero
keypoints and `None` descriptors. -/
def extBlack : (ℕ → ℕ → ℕ) → List KP × Option (List Desc) := fun _ => ([], none)

/-- A robust estimator that always fails (returns `None`). -/
def estNone : List KP → List KP → Option Mat23 := fun _ _ => none

/-- A sample successful robust-estimator result. -/
def A0 : Mat23 := ⟨2, 3, 10, 5, 7, 20⟩

/-- A robust estimator that always returns `A0`. -/
def estA0 : List KP → List KP → Option Mat23 := fun _ _ => some A0

/-- A freshly constructed instance with the source's default configuration:
`SIFT(warp_mode=cv2.MOTION_EUCLIDEAN, eps=1e-5, max_iter=100, scale=0.1,
align=False, grayscale=True)`. -/
def s0 : SIFTState := SIFT.init MOTION_EUCLIDEAN (1/100000) 100 (1/10) false true

/-- The default instance after caching a zero-keypoint extraction. -/
def sBlack1 : SIFTState := { s0 with prev_desc := some ([], none) }

/-- The default instance after caching the ten-descriptor extraction. -/
def sReady10 : SIFTState := { s0 with prev_desc := some (k10, some d10) }

/-- The default instance after caching the eleven-descriptor extraction. -/
def sReady11 : SIFTState := { s0 with prev_desc := some (k11, some d11) }

/-- C2: the scenario of two consecutive all-black frames.  The first call
caches `(zero keypoints, None descriptors)` and returns identity, but the
second call raises `AttributeError` when line 113 evaluates `desc.shape[0]`
on `None` — instead of returning identity without exception as specified.
This records the code bug behind claim C2. -/
theorem C2_black_frames_second_call_raises :
    SIFT.apply s0 100 100 none extBlack estNone =
      .ok ⟨.m23 eye23, sBlack1, false, false⟩
    ∧ SIFT.apply sBlack1 100 100 none extBlack estNone =
      .error "AttributeError: NoneType object has no attribute shape" :=
  ⟨rfl, rfl⟩

/-- The claim of C1 as stated: at the end of *every* non-raising `apply`
call, the cache equals the current call's extraction — including the calls
that return identity because a descriptor count is below the threshold. -/
def C1Stated : Prop :=
  ∀ (s : SIFTState) (h w : ℕ) (dets : Option (List Det))
    (extractor : (ℕ → ℕ → ℕ) → List KP × Option (List Desc))
    (est : List KP → List KP → Option Mat23) (out : ApplyOut),
    SIFT.apply s h w dets extractor est = .ok out →
    out.state.prev_desc = some (extractor (maskAt h w s.scale dets))

/-- C1 counterexample: a call whose current frame yields a single descriptor
(below the threshold 10) returns identity via line 114 *without* updating the
cache, so the cache still holds the older ten-descriptor extraction, not the
current one. -/
theorem C1_counterexample : ¬ C1Stated := by
  intro hcl
  have h1 := hcl sReady10 100 100 none ext1 estNone ⟨.m23 eye23, sReady10, false, false⟩ rfl
  simp only [sReady10, s0, ext1, k10, d10] at h1
  simp at h1

/-- Did this `apply` call take the below-threshold early return of lines
113-114 (the only non-raising path that skips the cache update)?  This holds
exactly when the instance already has a cache, the current descriptors are
present, and either the current count is below `minimum_features` or (the
cached descriptors being present) the cached count is. -/
def lowFeatureReturnB (s : SIFTState) (kpdesc : List KP × Option (List Desc)) : Bool :=
  match s.prev_desc, kpdesc.2 with
  | none, _ => false
  | some _, none => false
  | some pd, some d =>
    decide (d.length < s.minimum_features) ||
      (match pd.2 with
       | none => false
       | some pdl => decide (pdl.length < s.minimum_features))

/-- Case analysis of every non-raising `apply` call: the returned warp is
always of the 2x3 shape (`np.eye(2,3)` or the `estimateAffinePartial2D`
result), and the cache at the end of the call equals the current extraction
on every path except the below-threshold early return, which leaves the
cache untouched. -/
lemma apply_ok_cases (s : SIFTState) (h w : ℕ) (dets : Option (List Det))
    (extr : (ℕ → ℕ → ℕ) → List KP × Option (List Desc))
    (est : List KP → List KP → Option Mat23) (out : ApplyOut)
    (hap : SIFT.apply s h w dets extr est = .ok out) :
    (∃ m, out.warp = .m23 m) ∧
    out.state.prev_desc =
      (if lowFeatureReturnB s (extr (maskAt h w s.scale dets)) = true then s.prev_desc
       else some (extr (maskAt h w s.scale dets))) := by
  simp only [SIFT.apply] at hap
  split at hap
  case h_1 hpd =>
    simp only [Except.ok.injEq] at hap
    subst hap
    refine ⟨⟨eye23, rfl⟩, ?_⟩
    simp [lowFeatureReturnB, hpd]
  case h_2 pd hpd =>
    split at hap
    case h_1 hd2 => exact absurd hap (by simp)
    case h_2 d hd2 =>
      split at hap
      case isTrue hdlen =>
        simp only [Except.ok.injEq] at hap
        subst hap
        refine ⟨⟨eye23, rfl⟩, ?_⟩
        simp [lowFeatureReturnB, hpd, hd2, hdlen]
      case isFalse hdlen =>
        split at hap
        case h_1 hpd2 => exact absurd hap (by simp)
        case h_2 pdl hpd2 =>
          split at hap
          case isTrue hplen =>
            simp only [Except.ok.injEq] at hap
            subst hap
            refine ⟨⟨eye23, rfl⟩, ?_⟩
            simp [lowFeatureReturnB, hpd, hd2, hpd2, hdlen, hplen]
          case isFalse hplen =>
            split at hap
            case isTrue hgood =>
              split at hap
              case h_1 A hest =>
                simp only [Except.ok.injEq] at hap
                subst hap
                refine ⟨⟨_, rfl⟩, ?_⟩
                simp [lowFeatureReturnB, hpd, hd2, hpd2, hdlen, hplen]
              case h_2 hest =>
                split at hap
                case isTrue hsc => exact absurd hap (by simp)
                case isFalse hsc =>
                  simp only [Except.ok.injEq] at hap
                  subst hap
                  refine ⟨⟨eye23, rfl⟩, ?_⟩
                  simp [lowFeatureReturnB, hpd, hd2, hpd2, hdlen, hplen]
            case isFalse hgood =>
              simp only [Except.ok.injEq] at hap
              subst hap
              refine ⟨⟨eye23, rfl⟩, ?_⟩
              simp [lowFeatureReturnB, hpd, hd2, hpd2, hdlen, hplen]

/-- C1 (amended): the cached previous-frame state at the end of every
non-raising `apply` call equals the keypoints and descriptors extracted from
that call's current frame on *every* path — first call, insufficient
correspondences, estimator failure with `scale >= 1`, estimator success —
*except* the early return taken when the current or cached-previous
descriptor count is below the minimum threshold (lines 113-114), which
returns the identity transform with the cache left unchanged, so the next
call then compares against a stale frame. -/
theorem C1_cache_update_characterization (s : SIFTState) (h w : ℕ)
    (dets : Option (List Det))
    (extractor : (ℕ → ℕ → ℕ) → List KP × Option (List Desc))
    (est : List KP → List KP → Option Mat23) (out : ApplyOut)
    (hap : SIFT.apply s h w dets extractor est = .ok out) :
    out.state.prev_desc =
      (if lowFeatureReturnB s (extractor (maskAt h w s.scale dets)) = true then s.prev_desc
       else some (extractor (maskAt h w s.scale dets))) :=
  (apply_ok_cases s h w dets extractor est out hap).2

/-- C1 witness: the characterization applied to a concrete below-threshold
call (cached ten descriptors, current frame with a single descriptor). -/
theorem C1_cache_update_characterization_witness :
    (⟨.m23 eye23, sReady10, false, false⟩ : ApplyOut).state.prev_desc =
      (if lowFeatureReturnB sReady10 (ext1 (maskAt 100 100 sReady10.scale none)) = true
       then sReady10.prev_desc
       else some (ext1 (maskAt 100 100 sReady10.scale none))) :=
  C1_cache_update_characterization sReady10 100 100 none ext1 estNone
    ⟨.m23 eye23, sReady10, false, false⟩ rfl

/-- The `warp_matrix` attribute set by `__init__` is of the 3x3 shape
exactly when the homography model is configured. -/
lemma init_warp_shape (wm : ℕ) (eps : ℚ) (mi : ℕ) (sc : ℚ) (al gr : Bool) :
    (SIFT.init wm eps mi sc al gr).warp_matrix.isM33 = (wm == MOTION_HOMOGRAPHY) := by
  by_cases hwm : wm = MOTION_HOMOGRAPHY
  · simp [SIFT.init, hwm, Warp.isM33, MOTION_HOMOGRAPHY]
  · simp [SIFT.init, hwm, Warp.isM33]

/-- The claim of C9 as stated: configuring the projective/homography model
makes `apply` return a 3x3 transform. -/
def C9Stated : Prop :=
  ∀ (eps : ℚ) (mi : ℕ) (sc : ℚ) (al gr : Bool) (h w : ℕ) (dets : Option (List Det))
    (extractor : (ℕ → ℕ → ℕ) → List KP × Option (List Desc))
    (est : List KP → List KP → Option Mat23) (out : ApplyOut),
    SIFT.apply (SIFT.init MOTION_HOMOGRAPHY eps mi sc al gr) h w dets extractor est = .ok out →
    out.warp.isM33 = true

/-- C9 counterexample: with the homography model configured, the first
`apply` call still returns the 2x3 identity `np.eye(2,3)` — `apply` never
consults `warp_mode`, so the returned transform is never a 3x3 matrix. -/
theorem C9_counterexample : ¬ C9Stated := by
  intro hcl
  have h1 := hcl (1/100000) 100 (1/10) false true 100 100 none extBlack estNone
    ⟨.m23 eye23,
      { SIFT.init MOTION_HOMOGRAPHY (1/100000) 100 (1/10) false true with
          prev_desc := some ([], none) },
      false, false⟩ rfl
  simp [Warp.isM33] at h1

/-- C9 (amended): the warp-model option only selects the shape of the unused
`warp_matrix` attribute at construction time (3x3 exactly for the homography
model, 2x3 otherwise); the transform returned by every non-raising `apply`
call is a 2x3 matrix (from `estimateAffinePartial2D` or `np.eye(2,3)`)
regardless of the configured model. -/
theorem C9_warp_shape :
    (∀ (wm : ℕ) (eps : ℚ) (mi : ℕ) (sc : ℚ) (al gr : Bool),
       (SIFT.init wm eps mi sc al gr).warp_matrix.isM33 = (wm == MOTION_HOMOGRAPHY))
    ∧ (∀ (s : SIFTState) (h w : ℕ) (dets : Option (List Det))
        (extractor : (ℕ → ℕ → ℕ) → List KP × Option (List Desc))
        (est : List KP → List KP → Option Mat23) (out : ApplyOut),
        SIFT.apply s h w dets extractor est = .ok out → ∃ m, out.warp = .m23 m) := by
  constructor
  · exact init_warp_shape
  · intro s h w dets extractor est out hap
    exact (apply_ok_cases s h w dets extractor est out hap).1

/-- C9 witness: the two parts of `C9_warp_shape` at concrete inputs — the
homography-configured instance has a 3x3 `warp_matrix` attribute, yet a
non-raising call returns a 2x3 warp. -/
theorem C9_warp_shape_witness :
    (SIFT.init 3 (1/100000) 100 (1/10) false true).warp_matrix.isM33 = (3 == MOTION_HOMOGRAPHY)
    ∧ ∃ m, (⟨.m23 eye23, sBlack1, false, false⟩ : ApplyOut).warp = .m23 m :=
  ⟨C9_warp_shape.1 3 (1/100000) 100 (1/10) false true,
   C9_warp_shape.2 s0 100 100 none extBlack estNone ⟨.m23 eye23, sBlack1, false, false⟩ rfl⟩

/-- The claim of C10 as stated: construction fails on an invalid
configuration.  In the embedding, `__init__` is a total function into
`SIFTState`; the claim asserts there is *no* resulting state for, e.g., a
nonpositive scale, which we express as the construction result differing
from the unvalidated stored configuration. -/
def C10Stated : Prop :=
  ∀ (wm : ℕ) (eps : ℚ) (mi : ℕ) (sc : ℚ) (al gr : Bool),
    sc ≤ 0 → (SIFT.init wm eps mi sc al gr).scale ≠ sc

/-- C10 counterexample: `__init__` performs no validation at all — a
negative scale and an unknown warp-model value are both accepted and stored
verbatim, and construction succeeds. -/
theorem C10_counterexample :
    ¬ C10Stated
    ∧ (SIFT.init 999 (1/100000) 100 (1/10) false true).warp_mode = 999 := by
  constructor
  · intro hcl
    exact hcl MOTION_EUCLIDEAN (1/100000) 100 (-1) false true (by norm_num) rfl
  · rfl

/-- C10 (amended): construction never fails and performs no validation: for
every configuration — including `scale ≤ 0` and unknown warp-model values —
`__init__` simply records the configuration (with `warp_matrix` shaped 3x3
exactly for the homography model), fixes the threshold at 10 and starts with
an empty cache; any invalid-configuration failure can only surface in later
calls. -/
theorem C10_no_validation (wm : ℕ) (eps : ℚ) (mi : ℕ) (sc : ℚ) (al gr : Bool) :
    (SIFT.init wm eps mi sc al gr).scale = sc
    ∧ (SIFT.init wm eps mi sc al gr).warp_mode = wm
    ∧ (SIFT.init wm eps mi sc al gr).term_eps = eps
    ∧ (SIFT.init wm eps mi sc al gr).term_max_iter = mi
    ∧ (SIFT.init wm eps mi sc al gr).align = al
    ∧ (SIFT.init wm eps mi sc al gr).grayscale = gr
    ∧ (SIFT.init wm eps mi sc al gr).minimum_features = 10
    ∧ (SIFT.init wm eps mi sc al gr).prev_desc = none
    ∧ (SIFT.init wm eps mi sc al gr).warp_matrix.isM33 = (wm == MOTION_HOMOGRAPHY) :=
  ⟨rfl, rfl, rfl, rfl, rfl, rfl, rfl, rfl, init_warp_shape wm eps mi sc al gr⟩

/-- Matching the ten-descriptor frame against itself keeps exactly the ten
self-matches (each at squared distance 0, second-nearest at 1). -/
lemma good_d10 : goodMatches (7/10) d10 d10 =
    [(0, 0), (1, 1), (2, 2), (3, 3), (4, 4), (5, 5), (6, 6), (7, 7), (8, 8), (9, 9)] := by
  norm_num [goodMatches, knn2, idxDists, argminL, minPair, sqDist, d10, List.enum,
    List.enumFrom, List.filterMap_cons, List.filter_cons]

set_option maxRecDepth 8192 in
/-- Matching the eleven-descriptor frame against itself keeps exactly the
eleven self-matches. -/
lemma good_d11 : goodMatches (7/10) d11 d11 =
    [(0, 0), (1, 1), (2, 2), (3, 3), (4, 4), (5, 5), (6, 6), (7, 7), (8, 8), (9, 9), (10, 10)] := by
  norm_num [goodMatches, knn2, idxDists, argminL, minPair, sqDist, d11, List.enum,
    List.enumFrom, List.filterMap_cons, List.filter_cons]

/-- C5 (amended): in a call that reaches the matcher (cache present, both
descriptor counts at least the threshold), if the number of ratio-test
survivors is at most `minimum_features` (10) — so also when *exactly* 10
survive — the "not enough matching points" warning is reported and the
identity transform is returned without invoking the robust estimator (the
cache still being refreshed); the robust estimator is invoked only when
*strictly more than* 10 correspondences survive. -/
theorem C5_threshold_strict (s : SIFTState) (h w : ℕ) (dets : Option (List Det))
    (extractor : (ℕ → ℕ → ℕ) → List KP × Option (List Desc))
    (est : List KP → List KP → Option Mat23)
    (pkp : List KP) (pdl : List Desc) (kp : List KP) (d : List Desc)
    (hp : s.prev_desc = some (pkp, some pdl))
    (hx : extractor (maskAt h w s.scale dets) = (kp, some d))
    (hd : s.minimum_features ≤ d.length)
    (hpd : s.minimum_features ≤ pdl.length) :
    ((goodMatches (7/10) pdl d).length ≤ s.minimum_features →
      SIFT.apply s h w dets extractor est =
        .ok ⟨.m23 eye23, { s with prev_desc := some (kp, some d) }, true, false⟩)
    ∧ (s.minimum_features < (goodMatches (7/10) pdl d).length →
       ∀ A, est ((goodMatches (7/10) pdl d).map (fun ij => pkp.getD ij.1 ((0 : ℚ), (0 : ℚ))))
              ((goodMatches (7/10) pdl d).map (fun ij => kp.getD ij.2 ((0 : ℚ), (0 : ℚ)))) =
            some A →
       ∃ out, SIFT.apply s h w dets extractor est = .ok out ∧ out.estCalled = true) := by
  constructor
  · intro hle
    simp only [SIFT.apply, hp, hx]
    rw [if_neg (by omega : ¬ d.length < s.minimum_features),
      if_neg (by omega : ¬ pdl.length < s.minimum_features),
      if_neg (by omega : ¬ s.minimum_features < (goodMatches (7/10) pdl d).length)]
  · intro hgt A hA
    refine ⟨⟨.m23 (if s.scale < 1 then { A with a02 := A.a02 / s.scale, a12 := A.a12 / s.scale }
        else A), { s with prev_desc := some (kp, some d) }, false, true⟩, ?_, rfl⟩
    simp only [SIFT.apply, hp, hx]
    rw [if_neg (by omega : ¬ d.length < s.minimum_features),
      if_neg (by omega : ¬ pdl.length < s.minimum_features), if_pos hgt, hA]

/-- Length of the ten-descriptor list. -/
lemma d10_len : d10.length = 10 := rfl

/-- Length of the eleven-descriptor list. -/
lemma d11_len : d11.length = 11 := rfl

/-- The claim of C5 as stated: in a call that performs matching, fewer than
10 surviving correspondences yield the warning and the identity transform
without invoking the robust estimator, and *at least* 10 surviving
correspondences invoke the robust estimator. -/
def C5Stated : Prop :=
  ∀ (s : SIFTState) (h w : ℕ) (dets : Option (List Det))
    (extractor : (ℕ → ℕ → ℕ) → List KP × Option (List Desc))
    (est : List KP → List KP → Option Mat23) (out : ApplyOut)
    (pkp : List KP) (pdl : List Desc) (kp : List KP) (d : List Desc),
    SIFT.apply s h w dets extractor est = .ok out →
    s.prev_desc = some (pkp, some pdl) →
    extractor (maskAt h w s.scale dets) = (kp, some d) →
    s.minimum_features ≤ d.length →
    s.minimum_features ≤ pdl.length →
    (((goodMatches (7/10) pdl d).length < 10 →
        out.warned = true ∧ out.warp = .m23 eye23 ∧ out.estCalled = false)
     ∧ (10 ≤ (goodMatches (7/10) pdl d).length → out.estCalled = true))

/-- C5 counterexample: with *exactly* 10 surviving correspondences the code
takes the warning branch (line 123 tests `len(good) > 10`, strictly) and
never invokes the robust estimator, contradicting the claim's "at least 10"
direction. -/
theorem C5_counterexample : ¬ C5Stated := by
  intro hcl
  have hap : SIFT.apply sReady10 5 5 none ext10 estA0 =
      .ok ⟨.m23 eye23, sReady10, true, false⟩ := by
    simp only [SIFT.apply, sReady10, s0, SIFT.init, ext10, good_d10, d10_len]
    norm_num
  have h2 := (hcl sReady10 5 5 none ext10 estA0 ⟨.m23 eye23, sReady10, true, false⟩
      k10 d10 k10 d10 hap rfl rfl (by decide) (by decide)).2 (by rw [good_d10]; decide)
  simp at h2

/-- C5 witness: the amended threshold characterization applied to the
concrete exactly-10-correspondences run. -/
theorem C5_threshold_strict_witness :
    SIFT.apply sReady10 5 5 none ext10 estA0 =
      .ok ⟨.m23 eye23, { sReady10 with prev_desc := some (k10, some d10) }, true, false⟩ :=
  (C5_threshold_strict sReady10 5 5 none ext10 estA0 k10 d10 k10 d10 rfl rfl
    (by decide) (by decide)).1 (by rw [good_d10]; decide)

/-- C6: in every call that reaches the robust estimator and receives a
transform `A` from it, with a positive configured scale, the returned
transform has the rotation/shear entries of `A` unchanged and, exactly when
`scale < 1`, the two translation entries divided by `scale`; when
`scale ≥ 1` the transform `A` is returned unmodified.  The cache is
refreshed and no warning is reported. -/
theorem C6_rescale_translation (s : SIFTState) (h w : ℕ) (dets : Option (List Det))
    (extractor : (ℕ → ℕ → ℕ) → List KP × Option (List Desc))
    (est : List KP → List KP → Option Mat23)
    (pkp : List KP) (pdl : List Desc) (kp : List KP) (d : List Desc) (A : Mat23)
    (hp : s.prev_desc = some (pkp, some pdl))
    (hx : extractor (maskAt h w s.scale dets) = (kp, some d))
    (hd : s.minimum_features ≤ d.length)
    (hpd : s.minimum_features ≤ pdl.length)
    (hg : s.minimum_features < (goodMatches (7/10) pdl d).length)
    (hA : est ((goodMatches (7/10) pdl d).map (fun ij => pkp.getD ij.1 ((0 : ℚ), (0 : ℚ))))
            ((goodMatches (7/10) pdl d).map (fun ij => kp.getD ij.2 ((0 : ℚ), (0 : ℚ)))) =
          some A)
    (_hs : 0 < s.scale) :
    SIFT.apply s h w dets extractor est =
      .ok ⟨.m23 (if s.scale < 1 then { A with a02 := A.a02 / s.scale, a12 := A.a12 / s.scale }
          else A),
        { s with prev_desc := some (kp, some d) }, false, true⟩ := by
  simp only [SIFT.apply, hp, hx]
  rw [if_neg (by omega : ¬ d.length < s.minimum_features),
    if_neg (by omega : ¬ pdl.length < s.minimum_features), if_pos hg, hA]

/-- The ready state with the source's downsample undone less aggressively:
`scale = 1/2`. -/
def sHalf : SIFTState := { sReady11 with scale := 1/2 }

/-- C6 witness: the rescale characterization on a concrete successful
estimator run at `scale = 1/2`. -/
theorem C6_rescale_translation_witness :
    SIFT.apply sHalf 5 5 none ext11 estA0 =
      .ok ⟨.m23 (if sHalf.scale < 1
            then { A0 with a02 := A0.a02 / sHalf.scale, a12 := A0.a12 / sHalf.scale }
            else A0),
        { sHalf with prev_desc := some (k11, some d11) }, false, true⟩ :=
  C6_rescale_translation sHalf 5 5 none ext11 estA0 k11 d11 k11 d11 A0 rfl rfl
    (by decide) (by decide) (by rw [good_d11]; decide) rfl
    (by norm_num [sHalf, sReady11, s0, SIFT.init])

/-- C3: the scenario behind the code bug of claim C3.  The matcher produces
more than 10 correspondences, the robust estimator fails (`A is None`), and:
with the default `scale = 0.1 < 1`, line 129 (`A[0, 2] /= self.scale`) is
reached *before* the `A is None` check on line 133 and raises `TypeError`;
with `scale = 2 ≥ 1` the rescale block is skipped and line 133 substitutes
the identity transform as the spec describes. -/
theorem C3_estimator_failure_scale_lt_one_raises :
    SIFT.apply sReady11 5 5 none ext11 estNone =
      .error "TypeError: NoneType object is not subscriptable"
    ∧ SIFT.apply { sReady11 with scale := 2 } 5 5 none ext11 estNone =
      .ok ⟨.m23 eye23, { sReady11 with scale := 2, prev_desc := some (k11, some d11) },
        false, true⟩ := by
  constructor
  · simp only [SIFT.apply, sReady11, s0, SIFT.init, ext11, estNone, good_d11, d11_len]
    norm_num
  · simp only [SIFT.apply, sReady11, s0, SIFT.init, ext11, estNone, good_d11, d11_len]
    norm_num


/-- `j` is the nearest-neighbour index of query `q` in `train` (by squared
distance `d1`), semantically: the distance is attained at `j` and is minimal
over the whole train set. -/
def isNearest (q : Desc) (train : List Desc) (j : ℕ) (d1 : ℚ) : Prop :=
  (∃ tj : Desc, train[j]? = some tj ∧ sqDist q tj = d1) ∧
  ∀ (k : ℕ) (tk : Desc), train[k]? = some tk → d1 ≤ sqDist q tk

/-- `k` is the second-nearest-neighbour index of `q` in `train` relative to
nearest index `j` (by squared distance `d2`): attained at some `k ≠ j` and
minimal over all indices other than `j`. -/
def isSecondNearest (q : Desc) (train : List Desc) (j k : ℕ) (d2 : ℚ) : Prop :=
  k ≠ j ∧ (∃ tk : Desc, train[k]? = some tk ∧ sqDist q tk = d2) ∧
  ∀ (m : ℕ) (tm : Desc), m ≠ j → train[m]? = some tm → d2 ≤ sqDist q tm

/-- Distances from `q` to distinct train entries are distinct (no ties, so
nearest neighbours are unique). -/
def distinctDists (q : Desc) (train : List Desc) : Prop :=
  ∀ (i j : ℕ) (ti tj : Desc), train[i]? = some ti → train[j]? = some tj →
    sqDist q ti = sqDist q tj → i = j

/-- Unfolding: the minimum of a cons whose tail has no minimum (empty tail). -/
lemma argminL_cons_none {a : ℕ × ℚ} {as : List (ℕ × ℚ)} (h : argminL as = none) :
    argminL (a :: as) = some a := by
  simp [argminL, h]

/-- Unfolding: the minimum of a cons whose tail has minimum `b`. -/
lemma argminL_cons_some {a b : ℕ × ℚ} {as : List (ℕ × ℚ)} (h : argminL as = some b) :
    argminL (a :: as) = some (minPair a b) := by
  simp [argminL, h]

/-- The brute-force minimum is an element of the list. -/
lemma argminL_mem : ∀ {l : List (ℕ × ℚ)} {p : ℕ × ℚ}, argminL l = some p → p ∈ l := by
  intro l
  induction l with
  | nil => intro p h; simp [argminL] at h
  | cons a as ih =>
    intro p h
    cases has : argminL as with
    | none =>
      rw [argminL_cons_none has] at h
      exact (Option.some.inj h) ▸ List.mem_cons_self a as
    | some b =>
      rw [argminL_cons_some has] at h
      have hb := Option.some.inj h
      unfold minPair at hb
      by_cases hlt : b.2 < a.2
      · rw [if_pos hlt] at hb
        exact hb ▸ List.mem_cons_of_mem a (ih has)
      · rw [if_neg hlt] at hb
        exact hb ▸ List.mem_cons_self a as

/-- The brute-force minimum is a lower bound of the list. -/
lemma argminL_le : ∀ {l : List (ℕ × ℚ)} {p : ℕ × ℚ}, argminL l = some p →
    ∀ x ∈ l, p.2 ≤ x.2 := by
  intro l
  induction l with
  | nil => intro p h; simp [argminL] at h
  | cons a as ih =>
    intro p h x hx
    cases has : argminL as with
    | none =>
      rw [argminL_cons_none has] at h
      have haseq : as = [] := by
        cases as with
        | nil => rfl
        | cons c cs => simp [argminL] at has
      subst haseq
      simp only [List.mem_cons, List.not_mem_nil, or_false] at hx
      subst hx
      rw [← Option.some.inj h]
    | some b =>
      rw [argminL_cons_some has] at h
      rw [← Option.some.inj h]
      unfold minPair
      rcases List.mem_cons.mp hx with hxa | hxs
      · rw [hxa]
        by_cases hlt : b.2 < a.2
        · rw [if_pos hlt]; exact le_of_lt hlt
        · rw [if_neg hlt]
      · have hble := ih has x hxs
        by_cases hlt : b.2 < a.2
        · rw [if_pos hlt]; exact hble
        · rw [if_neg hlt]; exact le_trans (not_lt.mp hlt) hble

/-- The brute-force minimum exists on a nonempty list. -/
lemma argminL_isSome {l : List (ℕ × ℚ)} (h : l ≠ []) : (argminL l).isSome = true := by
  cases l with
  | nil => exact absurd rfl h
  | cons a as => simp [argminL]

/-- A value of minimal distance whose index is the unique minimizer is the
brute-force minimum. -/
lemma argminL_eq {l : List (ℕ × ℚ)} {p : ℕ × ℚ} {j : ℕ} {d : ℚ}
    (h : argminL l = some p) (hmem : (j, d) ∈ l) (hmin : ∀ x ∈ l, d ≤ x.2)
    (huniq : ∀ x ∈ l, x.2 = d → x.1 = j) : p = (j, d) := by
  have hp := argminL_mem h
  have h3 : p.2 = d := le_antisymm (argminL_le h _ hmem) (hmin _ hp)
  exact Prod.ext_iff.mpr ⟨huniq _ hp h3, h3⟩

/-- Membership in the indexed distance list, in terms of the train list. -/
lemma mem_idxDists {q : Desc} {train : List Desc} {k : ℕ} {e : ℚ} :
    (k, e) ∈ idxDists q train ↔ ∃ tk : Desc, train[k]? = some tk ∧ e = sqDist q tk := by
  unfold idxDists
  constructor
  · intro h
    obtain ⟨it, hit, heq⟩ := List.mem_map.mp h
    obtain ⟨i, t⟩ := it
    have h1 : i = k := congrArg Prod.fst heq
    have h2 : sqDist q t = e := congrArg Prod.snd heq
    subst h1
    exact ⟨t, List.mk_mem_enum_iff_getElem?.mp hit, h2.symm⟩
  · rintro ⟨tk, hk, rfl⟩
    exact List.mem_map.mpr ⟨(k, tk), List.mk_mem_enum_iff_getElem?.mpr hk, rfl⟩

/-- Unfolding: `knnMatch` yields a pair as soon as both minima exist. -/
lemma knn2_eq_of {q : Desc} {train : List Desc} {b1 b2 : ℕ × ℚ}
    (h1 : argminL (idxDists q train) = some b1)
    (h2 : argminL ((idxDists q train).filter (fun p => decide (p.1 ≠ b1.1))) = some b2) :
    knn2 q train = some (b1, b2) := by
  simp only [knn2, h1, h2]

/-- Unfolding: `knnMatch` yields nothing without a nearest neighbour. -/
lemma knn2_eq_none_left {q : Desc} {train : List Desc}
    (h1 : argminL (idxDists q train) = none) : knn2 q train = none := by
  simp only [knn2, h1]

/-- Unfolding: `knnMatch` yields nothing without a second neighbour. -/
lemma knn2_eq_none_right {q : Desc} {train : List Desc} {b1 : ℕ × ℚ}
    (h1 : argminL (idxDists q train) = some b1)
    (h2 : argminL ((idxDists q train).filter (fun p => decide (p.1 ≠ b1.1))) = none) :
    knn2 q train = none := by
  simp only [knn2, h1, h2]

/-- Soundness of the embedded `knnMatch`: a produced pair consists of a
semantic nearest neighbour and a semantic second-nearest neighbour. -/
lemma knn2_sound {q : Desc} {train : List Desc} {j k : ℕ} {d1 d2 : ℚ}
    (h : knn2 q train = some ((j, d1), (k, d2))) :
    isNearest q train j d1 ∧ isSecondNearest q train j k d2 := by
  rcases h1 : argminL (idxDists q train) with _ | b1
  · rw [knn2_eq_none_left h1] at h; simp at h
  · rcases h2 : argminL ((idxDists q train).filter (fun p => decide (p.1 ≠ b1.1))) with _ | b2
    · rw [knn2_eq_none_right h1 h2] at h; simp at h
    · rw [knn2_eq_of h1 h2] at h
      have hb := Option.some.inj h
      have hb1 : b1 = (j, d1) := congrArg Prod.fst hb
      have hb2 : b2 = (k, d2) := congrArg Prod.snd hb
      subst hb1
      subst hb2
      constructor
      · constructor
        · obtain ⟨tj, hj, he⟩ := mem_idxDists.mp (argminL_mem h1)
          exact ⟨tj, hj, he.symm⟩
        · intro k2 tk hk
          exact argminL_le h1 _ (mem_idxDists.mpr ⟨tk, hk, rfl⟩)
      · have hm2 := argminL_mem h2
        have hmem := (List.mem_filter.mp hm2).1
        have hkj : k ≠ j := by
          have hdec := (List.mem_filter.mp hm2).2
          simpa using hdec
        refine ⟨hkj, ?_, ?_⟩
        · obtain ⟨tk, hk, he⟩ := mem_idxDists.mp hmem
          exact ⟨tk, hk, he.symm⟩
        · intro m tm hmj hm
          refine argminL_le h2 _ (List.mem_filter.mpr ⟨mem_idxDists.mpr ⟨tm, hm, rfl⟩, ?_⟩)
          simpa using hmj

/-- Completeness of the embedded `knnMatch` under distinct distances: a
semantic nearest neighbour and second-nearest neighbour are what `knnMatch`
returns (the second index being unique as well, though only its distance is
needed). -/
lemma knn2_complete {q : Desc} {train : List Desc} {j k : ℕ} {d1 d2 : ℚ}
    (hd : distinctDists q train) (hn : isNearest q train j d1)
    (hs2 : isSecondNearest q train j k d2) :
    ∃ k2, knn2 q train = some ((j, d1), (k2, d2)) := by
  obtain ⟨⟨tj, hj, hdj⟩, hmin⟩ := hn
  obtain ⟨hkj, ⟨tk, hk, hdk⟩, hmin2⟩ := hs2
  have hmem1 : (j, d1) ∈ idxDists q train := mem_idxDists.mpr ⟨tj, hj, hdj.symm⟩
  obtain ⟨b1, hb1⟩ := Option.isSome_iff_exists.mp (argminL_isSome (List.ne_nil_of_mem hmem1))
  have hb1eq : b1 = (j, d1) := by
    apply argminL_eq hb1 hmem1
    · intro x hx
      obtain ⟨i2, e2⟩ := x
      obtain ⟨t2, ht2, he2⟩ := mem_idxDists.mp hx
      have : d1 ≤ sqDist q t2 := hmin _ _ ht2
      rw [show (i2, e2).2 = e2 from rfl, he2]
      exact this
    · intro x hx hxe
      obtain ⟨i2, e2⟩ := x
      obtain ⟨t2, ht2, he2⟩ := mem_idxDists.mp hx
      have hxe2 : e2 = d1 := hxe
      exact hd i2 j t2 tj ht2 hj (by rw [← he2, hxe2, ← hdj])
  subst hb1eq
  have hmem2 : (k, d2) ∈ (idxDists q train).filter (fun p => decide (p.1 ≠ (j, d1).1)) :=
    List.mem_filter.mpr ⟨mem_idxDists.mpr ⟨tk, hk, hdk.symm⟩, by simpa using hkj⟩
  obtain ⟨b2, hb2⟩ := Option.isSome_iff_exists.mp (argminL_isSome (List.ne_nil_of_mem hmem2))
  have hb2f := List.mem_filter.mp (argminL_mem hb2)
  obtain ⟨t3, ht3, he3⟩ := mem_idxDists.mp (show (b2.1, b2.2) ∈ idxDists q train by
    simpa using hb2f.1)
  have hb2ne : b2.1 ≠ j := by
    have hdec := hb2f.2
    simpa using hdec
  have hle1 : b2.2 ≤ d2 := argminL_le hb2 _ hmem2
  have hle2 : d2 ≤ b2.2 := by
    have hdist := hmin2 b2.1 t3 hb2ne ht3
    rw [he3]
    exact hdist
  have he4 : b2 = (b2.1, d2) := Prod.ext_iff.mpr ⟨rfl, le_antisymm hle1 hle2⟩
  refine ⟨b2.1, ?_⟩
  rw [knn2_eq_of hb1 hb2, he4]

/-- A squared distance is nonnegative. -/
lemma sqDist_nonneg (q t : Desc) : 0 ≤ sqDist q t := by
  unfold sqDist
  apply List.sum_nonneg
  intro x hx
  obtain ⟨p, _hp, rfl⟩ := List.mem_map.mp hx
  exact sq_nonneg _

/-- Membership characterization of the kept correspondences: under
pairwise-distinct distances, `(i, j)` is kept exactly when `j` is the
nearest neighbour of the `i`-th *query* (previous-frame) descriptor in the
train (current-frame) set and the squared nearest distance beats
`rho^2` times the squared second-nearest distance. -/
lemma mem_goodMatches_iff {rho : ℚ} {prev curr : List Desc} {i j : ℕ} {q : Desc}
    (hq : prev[i]? = some q) (hd : distinctDists q curr) :
    (i, j) ∈ goodMatches rho prev curr ↔
      ∃ d1 k d2, isNearest q curr j d1 ∧ isSecondNearest q curr j k d2 ∧
        d1 < rho ^ 2 * d2 := by
  unfold goodMatches
  constructor
  · intro h
    obtain ⟨iq, hiq, hres⟩ := List.mem_filterMap.mp h
    obtain ⟨i2, q2⟩ := iq
    rcases hk : knn2 q2 curr with _ | b
    · rw [hk] at hres; simp at hres
    · rw [hk] at hres
      simp only at hres
      by_cases hr : b.1.2 < rho ^ 2 * b.2.2
      · rw [if_pos hr] at hres
        have hi2 : i2 = i := congrArg Prod.fst (Option.some.inj hres)
        have hj2 : b.1.1 = j := congrArg Prod.snd (Option.some.inj hres)
        subst hi2
        have hq2 : prev[i2]? = some q2 := List.mk_mem_enum_iff_getElem?.mp hiq
        have hqq : q2 = q := Option.some.inj (hq2.symm.trans hq)
        subst hqq
        obtain ⟨⟨j1, d1⟩, ⟨k1, d2⟩⟩ := b
        have hj1 : j1 = j := hj2
        subst hj1
        obtain ⟨hn, hs2⟩ := knn2_sound hk
        exact ⟨d1, k1, d2, hn, hs2, hr⟩
      · rw [if_neg hr] at hres; simp at hres
  · rintro ⟨d1, k, d2, hn, hs2, hr⟩
    obtain ⟨k2, hk⟩ := knn2_complete hd hn hs2
    refine List.mem_filterMap.mpr ⟨(i, q), List.mk_mem_enum_iff_getElem?.mpr hq, ?_⟩
    rw [hk]
    simp only
    rw [if_pos (by exact hr)]

/-- A pointwise `isSome` implication bounds the lengths of two `filterMap`s. -/
lemma filterMap_length_mono {α β : Type} {f g : α → Option β}
    (hfg : ∀ x, (f x).isSome = true → (g x).isSome = true) :
    ∀ l : List α, (l.filterMap f).length ≤ (l.filterMap g).length := by
  intro l
  induction l with
  | nil => simp
  | cons a as ih =>
    cases hfa : f a with
    | none =>
      cases hga : g a with
      | none => simpa [List.filterMap_cons, hfa, hga] using ih
      | some c =>
        simp only [List.filterMap_cons, hfa, hga, List.length_cons]
        exact Nat.le_succ_of_le ih
    | some b =>
      have hg := hfg a (by rw [hfa]; rfl)
      cases hga : g a with
      | none => rw [hga] at hg; simp at hg
      | some c =>
        simp only [List.filterMap_cons, hfa, hga, List.length_cons]
        exact Nat.succ_le_succ ih

/-- The claim of C7 as stated: a match for a *current* descriptor is kept iff
its nearest-neighbour distance in the *previous* set is strictly less than
0.7 times its second-nearest-neighbour distance there (on squared distances,
`d1 < (0.7)^2 * d2`). -/
def C7Stated : Prop :=
  ∀ (prev curr : List Desc) (j : ℕ) (c : Desc), curr[j]? = some c →
    ((∃ i, (i, j) ∈ goodMatches (7/10) prev curr) ↔
      ∃ b1 b2, knn2 c prev = some (b1, b2) ∧ b1.2 < (7/10 : ℚ) ^ 2 * b2.2)

/-- C7 counterexample: with previous descriptors `[0], [100]` and current
descriptors `[0], [1], [100]`, the current descriptor `[1]` passes the
claimed current-against-previous ratio test (distances 1 and 9801), yet no
kept correspondence involves it: the code matches each *previous* descriptor
against the current set (`knnMatch(prev, curr)`), keeping only
`(0, 0)` and `(1, 2)`. -/
theorem C7_counterexample : ¬ C7Stated := by
  intro hcl
  have h1 := (hcl [[0], [100]] [[0], [1], [100]] 1 [1] rfl).mpr
    ⟨(0, 1), (1, 9801), by
      norm_num [knn2, idxDists, argminL, minPair, sqDist, List.enum, List.enumFrom,
        List.filter_cons], by norm_num⟩
  obtain ⟨i, hi⟩ := h1
  have hg : goodMatches (7/10) [[0], [100]] [[0], [1], [100]] = [(0, 0), (1, 2)] := by
    norm_num [goodMatches, knn2, idxDists, argminL, minPair, sqDist, List.enum,
      List.enumFrom, List.filterMap_cons, List.filter_cons]
  rw [hg] at hi
  simp at hi

/-- C7 (amended): the ratio test runs in the opposite direction from the
claim — for every *previous* (cached) descriptor, its match into the
*current* set is kept iff its nearest-neighbour distance in the current set
is strictly less than 0.7 times its second-nearest-neighbour distance there
(squared distances, unique up to distinct-distance ties); and decreasing the
0.7 constant cannot increase the number of retained correspondences. -/
theorem C7_ratio_test_characterization :
    (∀ (rho : ℚ) (prev curr : List Desc) (i j : ℕ) (q : Desc),
        prev[i]? = some q → distinctDists q curr →
        ((i, j) ∈ goodMatches rho prev curr ↔
          ∃ d1 k d2, isNearest q curr j d1 ∧ isSecondNearest q curr j k d2 ∧
            d1 < rho ^ 2 * d2))
    ∧ (∀ (r1 r2 : ℚ) (prev curr : List Desc), 0 ≤ r1 → r1 ≤ r2 →
        (goodMatches r1 prev curr).length ≤ (goodMatches r2 prev curr).length) := by
  constructor
  · exact fun rho prev curr i j q hq hd => mem_goodMatches_iff hq hd
  · intro r1 r2 prev curr h0 h12
    unfold goodMatches
    apply filterMap_length_mono
    intro x hx
    rcases hk : knn2 x.2 curr with _ | b
    · rw [hk] at hx; simp at hx
    · obtain ⟨⟨j1, d1⟩, ⟨k1, d2⟩⟩ := b
      by_cases hr : d1 < r1 ^ 2 * d2
      · obtain ⟨_, hs2⟩ := knn2_sound hk
        obtain ⟨_, ⟨tk, _, hdk⟩, _⟩ := hs2
        have hd2 : 0 ≤ d2 := hdk ▸ sqDist_nonneg x.2 tk
        have hr2 : d1 < r2 ^ 2 * d2 :=
          lt_of_lt_of_le hr (mul_le_mul_of_nonneg_right (pow_le_pow_left₀ h0 h12 2) hd2)
        simp [hr2]
      · rw [hk] at hx
        simp [hr] at hx

/-- Distances from `[0]` to `[[0], [5]]` are distinct. -/
lemma distinct_ex : distinctDists [0] [[(0 : ℚ)], [5]] := by
  intro i j ti tj hi hj he
  rcases i with _ | _ | i
  · rcases j with _ | _ | j
    · rfl
    · exfalso
      simp only [List.getElem?_cons_zero, List.getElem?_cons_succ, Option.some.injEq] at hi hj
      subst hi
      subst hj
      norm_num [sqDist] at he
    · simp at hj
  · rcases j with _ | _ | j
    · exfalso
      simp only [List.getElem?_cons_zero, List.getElem?_cons_succ, Option.some.injEq] at hi hj
      subst hi
      subst hj
      norm_num [sqDist] at he
    · rfl
    · simp at hj
  · simp at hi

/-- C7 witness: the characterization and the monotonicity at a concrete
previous/current descriptor pair. -/
theorem C7_ratio_test_characterization_witness :
    ((0, 0) ∈ goodMatches (7/10) [[0]] [[(0 : ℚ)], [5]] ↔
      ∃ d1 k d2, isNearest [0] [[(0 : ℚ)], [5]] 0 d1 ∧
        isSecondNearest [0] [[(0 : ℚ)], [5]] 0 k d2 ∧ d1 < (7/10 : ℚ) ^ 2 * d2)
    ∧ (goodMatches (1/2) [[0]] [[(0 : ℚ)], [5]]).length ≤
        (goodMatches (7/10) [[0]] [[(0 : ℚ)], [5]]).length :=
  ⟨C7_ratio_test_characterization.1 (7/10) [[0]] [[0], [5]] 0 0 [0] rfl distinct_ex,
   C7_ratio_test_characterization.2 (1/2) (7/10) [[0]] [[0], [5]] (by norm_num) (by norm_num)⟩

/-- Clipping an integer coordinate into the bounds `[0, n]` of an axis, as
the claim's "clipped to mask bounds" reads. -/
def clampIdx (n : ℕ) (a : ℤ) : ℕ := if a < 0 then 0 else if (n : ℤ) < a then n else a.toNat

/-- Membership of pixel `(r, c)` in a detection's scaled, truncated box
clipped to the mask bounds (the claim's description of the zeroed region). -/
def inClampRect (h w : ℕ) (scale : ℚ) (dt : Det) (r c : ℕ) : Prop :=
  clampIdx h (truncQ (dt.2.1 * scale)) ≤ r ∧ r < clampIdx h (truncQ (dt.2.2.2 * scale)) ∧
  clampIdx w (truncQ (dt.1 * scale)) ≤ c ∧ c < clampIdx w (truncQ (dt.2.2.1 * scale))

/-- The claim of C8 as stated: the mask is zero on the 2% border, nonzero on
interior pixels not covered by any detection's clipped box, and zero on
every detection's scaled, truncated box clipped to the mask bounds. -/
def C8Stated (h w : ℕ) (scale : ℚ) (dets : Option (List Det)) : Prop :=
  (∀ r c, r < h → c < w →
    (r < 2 * h / 100 ∨ 98 * h / 100 ≤ r ∨ c < 2 * w / 100 ∨ 98 * w / 100 ≤ c) →
    maskAt h w scale dets r c = 0)
  ∧ (∀ r c, 2 * h / 100 ≤ r → r < 98 * h / 100 → 2 * w / 100 ≤ c → c < 98 * w / 100 →
      (∀ ds, dets = some ds → ∀ dt ∈ ds, ¬ inClampRect h w scale dt r c) →
      maskAt h w scale dets r c ≠ 0)
  ∧ (∀ ds, dets = some ds → ∀ dt ∈ ds, ∀ r c, inClampRect h w scale dt r c →
      maskAt h w scale dets r c = 0)

/-- C8 counterexample: a detection reaching outside the frame, scaled and
truncated to `(-3, -3, 5, 5)` on a 100x100 mask with `scale = 0.1`.  Clipped
to the mask bounds its box is rows/columns `[0, 5)`, which contains the
interior pixel `(3, 3)` — but NumPy interprets the negative slice bound
`-3` as `97`, so `mask[-3:5, -3:5] = 0` assigns nothing and the pixel keeps
the value 255. -/
theorem C8_counterexample :
    ¬ C8Stated 100 100 (1/10) (some [((-30 : ℚ), -30, 50, 50)]) := by
  intro hcl
  have hin : inClampRect 100 100 (1/10) ((-30 : ℚ), -30, 50, 50) 3 3 := by
    norm_num [inClampRect, clampIdx, truncQ]
  have h3 := hcl.2.2 [((-30 : ℚ), -30, 50, 50)] rfl ((-30 : ℚ), -30, 50, 50)
    (List.mem_singleton.mpr rfl) 3 3 hin
  have hval : maskAt 100 100 (1/10) (some [((-30 : ℚ), -30, 50, 50)]) 3 3 = 255 := by
    norm_num [maskAt, maskBase, detCovers, sliceIdx, truncQ, List.any_cons, List.any_nil]
  rw [hval] at h3
  exact absurd h3 (by norm_num)

/-- A nonnegative slice bound is simply clipped: NumPy's negative-index
wrapping never fires. -/
lemma sliceIdx_eq_clampIdx {n : ℕ} {a : ℤ} (ha : 0 ≤ a) : sliceIdx n a = clampIdx n a := by
  simp only [sliceIdx, clampIdx]
  rw [if_neg (not_lt.mpr ha)]

/-- C8 (amended): the claim as stated holds for every detection whose
scaled, truncated coordinates are all nonnegative (in particular whenever
the boxes lie inside the frame).  For negative truncated coordinates NumPy
slicing counts from the end of the axis instead of clipping to 0, so the
claimed clipped rectangle is in general not the zeroed region (see the
counterexample). -/
theorem C8_mask_nonneg (h w : ℕ) (scale : ℚ) (dets : Option (List Det))
    (hnn : ∀ ds, dets = some ds → ∀ dt ∈ ds,
      0 ≤ truncQ (dt.1 * scale) ∧ 0 ≤ truncQ (dt.2.1 * scale) ∧
      0 ≤ truncQ (dt.2.2.1 * scale) ∧ 0 ≤ truncQ (dt.2.2.2 * scale)) :
    C8Stated h w scale dets := by
  have hbase0 : ∀ r c,
      (r < 2 * h / 100 ∨ 98 * h / 100 ≤ r ∨ c < 2 * w / 100 ∨ 98 * w / 100 ≤ c) →
      maskBase h w r c = 0 := by
    intro r c hb
    unfold maskBase
    rcases hb with hb | hb | hb | hb <;> rw [if_neg (by omega)]
  refine ⟨?_, ?_, ?_⟩
  · intro r c _hr _hc hb
    cases dets with
    | none => simpa only [maskAt] using hbase0 r c hb
    | some ds =>
      simp only [maskAt]
      split
      · rfl
      · exact hbase0 r c hb
  · intro r c h1 h2 h3 h4 hno
    have hbase : maskBase h w r c = 255 := by
      unfold maskBase
      rw [if_pos ⟨h1, h2, h3, h4⟩]
    cases dets with
    | none =>
      simp only [maskAt, hbase]
      norm_num
    | some ds =>
      have hany : ds.any (fun dt => detCovers h w scale dt r c) = false := by
        rw [List.any_eq_false]
        intro dt hdt hcov
        obtain ⟨h0x1, h0y1, h0x2, h0y2⟩ := hnn ds rfl dt hdt
        simp only [detCovers] at hcov
        have hcon := of_decide_eq_true hcov
        rw [sliceIdx_eq_clampIdx h0y1, sliceIdx_eq_clampIdx h0y2,
          sliceIdx_eq_clampIdx h0x1, sliceIdx_eq_clampIdx h0x2] at hcon
        exact hno ds rfl dt hdt hcon
      simp only [maskAt, hany, Bool.false_eq_true, if_false, hbase]
      norm_num
  · intro ds hds dt hdt r c hin
    subst hds
    have hcov : detCovers h w scale dt r c = true := by
      simp only [detCovers]
      apply decide_eq_true
      obtain ⟨h0x1, h0y1, h0x2, h0y2⟩ := hnn ds rfl dt hdt
      obtain ⟨hi1, hi2, hi3, hi4⟩ := hin
      refine ⟨?_, ?_, ?_, ?_⟩
      · rw [sliceIdx_eq_clampIdx h0y1]; exact hi1
      · rw [sliceIdx_eq_clampIdx h0y2]; exact hi2
      · rw [sliceIdx_eq_clampIdx h0x1]; exact hi3
      · rw [sliceIdx_eq_clampIdx h0x2]; exact hi4
    have hany : ds.any (fun d2 => detCovers h w scale d2 r c) = true :=
      List.any_eq_true.mpr ⟨dt, hdt, hcov⟩
    simp only [maskAt, hany, if_true]

/-- C8 witness: the amended mask characterization for a detection box that
stays inside the frame (`(10, 10, 50, 50)` at `scale = 0.1`). -/
theorem C8_mask_nonneg_witness :
    C8Stated 100 100 (1/10) (some [((10 : ℚ), 10, 50, 50)]) := by
  apply C8_mask_nonneg
  intro ds hds dt hdt
  cases hds
  simp only [List.mem_singleton] at hdt
  subst hdt
  norm_num [truncQ]
